import Mathlib

/-!
Shallow embedding of the core of `src/ATM.py` (repository `arashm83/ATM`):
the `User` record with its flat-file `load_users`/`save` serialization, and
the `BankService` session service (`authenticate`, `change_password`,
`withdraw`, `transfer`, `get_balance`).

Modelling conventions:
* Python's `int` is unbounded, so balances and amounts are `Int`.
* The Python session holds a reference to a `User` object inside the list;
  following the spec's own suggestion (arena + index), the session is an
  optional index into the account list, and mutation through the session is
  `List.set` at that index.  An out-of-range index cannot arise from the
  operations themselves; the operations guard it with `List.getElem?` and treat
  it as the unauthenticated case.
* Strings are handled at the `List Char` level for the file format, so that
  the comma/newline splitting of `load_users` and the `csv.writer` quoting
  of `save` can be reasoned about by structural induction.  `str.isdigit`,
  `int(...)` and whitespace stripping are modelled on the ASCII fragment.
-/

namespace ATM

/-- The `User` dataclass of `ATM.py`: `card_number`, `password`, `balance`. -/
structure User where
  card_number : String
  password : String
  balance : Int
  deriving DecidableEq, Repr

/-- The mutable state of `BankService`: the account list `_users` and the
session binding `_current_user`, modelled as an optional index. -/
structure BankService where
  users : List User
  current_user : Option Nat
  deriving DecidableEq, Repr

/-- The scan of `BankService.authenticate`: first index (and account) in
store order whose password equals the supplied string. -/
def findAuth (p : String) : List User → Option (Nat × User)
  | [] => none
  | u :: rest =>
    if u.password = p then some (0, u)
    else (findAuth p rest).map (fun q => (q.1 + 1, q.2))

/-- `BankService.authenticate`: returns the first matching account and binds
the session to it; on failure returns `none` and leaves the state alone. -/
def authenticate (p : String) (s : BankService) : Option User × BankService :=
  match findAuth p s.users with
  | none => (none, s)
  | some (i, u) => (some u, { s with current_user := some i })

/-- `BankService.change_password`: requires a session whose stored password
equals `cur`; on success overwrites the stored password with `new`. -/
def change_password (cur new : String) (s : BankService) : Bool × BankService :=
  match s.current_user with
  | none => (false, s)
  | some i =>
    match s.users[i]? with
    | none => (false, s)
    | some u =>
      if u.password ≠ cur then (false, s)
      else (true, { s with users := s.users.set i { u with password := new } })

/-- `BankService.withdraw`: fails if unauthenticated, `amount <= 0`, or
`balance < amount`; on success decrements the balance by `amount`. -/
def withdraw (amount : Int) (s : BankService) : Bool × BankService :=
  match s.current_user with
  | none => (false, s)
  | some i =>
    match s.users[i]? with
    | none => (false, s)
    | some u =>
      if amount ≤ 0 ∨ u.balance < amount then (false, s)
      else (true, { s with users := s.users.set i { u with balance := u.balance - amount } })

/-- Python `str.isdigit` on the ASCII fragment: nonempty and all characters
decimal digits. -/
def pyIsdigit (s : String) : Bool :=
  !s.data.isEmpty && s.data.all Char.isDigit

/-- `BankService.transfer`: fails if unauthenticated, `amount <= 0`,
`dest_card` fails `isdigit`, or `balance < amount`; on success decrements
only the session account's balance (the destination is never credited). -/
def transfer (amount : Int) (dest_card : String) (s : BankService) : Bool × BankService :=
  match s.current_user with
  | none => (false, s)
  | some i =>
    match s.users[i]? with
    | none => (false, s)
    | some u =>
      if amount ≤ 0 ∨ ¬ pyIsdigit dest_card ∨ u.balance < amount then (false, s)
      else (true, { s with users := s.users.set i { u with balance := u.balance - amount } })

/-- `BankService.get_balance`: the session account's balance, `0` when
unauthenticated. -/
def get_balance (s : BankService) : Int :=
  match s.current_user with
  | none => 0
  | some i =>
    match s.users[i]? with
    | none => 0
    | some u => u.balance

/-- Folding a list of `withdraw` calls over the state (the "sequence of
withdraw calls" of the spec). -/
def withdrawSeq (amts : List Int) (s : BankService) : BankService :=
  amts.foldl (fun st a => (withdraw a st).2) s

/-- The balance invariant: every stored balance is non-negative. -/
def allNonneg (s : BankService) : Prop :=
  ∀ u ∈ s.users, 0 ≤ u.balance

instance : DecidablePred allNonneg := fun s =>
  inferInstanceAs (Decidable (∀ u ∈ s.users, 0 ≤ u.balance))

/-! ### The flat accounts file: `User.load_users` and `User.save`

The file on disk is a sequence of characters.  Reading in Python text mode
applies universal-newline translation (`\r\n` and lone `\r` become `\n`),
modelled by `unlChars`; iterating over the file yields the `\n`-separated
lines, modelled by `pyLines`.  `load_users` splits each line on `,` into
exactly three fields and parses the third with Python `int(...)`
(surrounding whitespace stripped, optional sign, decimal digits with
single underscores allowed between digits), modelled on ASCII.
`save` writes via `csv.writer`: fields containing `,`, `"`, `\r` or `\n`
are wrapped in double quotes with inner quotes doubled, rows end in
`\r\n`.  A missing file raises `FileNotFoundError` (`NotFoundError` in the
spec's taxonomy); a malformed line raises `ValueError` (`FormatError`). -/

inductive LoadError where
  | NotFoundError
  | FormatError
  deriving DecidableEq, Repr

instance {e a : Type} [DecidableEq e] [DecidableEq a] : DecidableEq (Except e a)
  | .error x, .error y => decidable_of_iff (x = y) (by simp)
  | .error _, .ok _ => isFalse (by simp)
  | .ok _, .error _ => isFalse (by simp)
  | .ok x, .ok y => decidable_of_iff (x = y) (by simp)

/-- Universal-newline translation performed by reading in text mode. -/
def unlChars : List Char → List Char
  | [] => []
  | '\r' :: '\n' :: rest => '\n' :: unlChars rest
  | '\r' :: rest => '\n' :: unlChars rest
  | c :: rest => c :: unlChars rest

/-- Split a character list on a separator, Python `str.split` style:
always at least one group, empty groups preserved. -/
def splitOnChar (sep : Char) : List Char → List (List Char)
  | [] => [[]]
  | c :: rest =>
    if c = sep then [] :: splitOnChar sep rest
    else
      match splitOnChar sep rest with
      | [] => [[c]]
      | g :: gs => (c :: g) :: gs

/-- The lines produced by iterating over a text-mode file whose content is
`cs` (each line without its terminating newline): `\n`-separated segments,
with no final empty segment when the content ends in `\n`. -/
def pyLines (cs : List Char) : List (List Char) :=
  if cs = [] then []
  else if cs.getLast? = some '\n' then (splitOnChar '\n' cs).dropLast
  else splitOnChar '\n' cs

/-- The ASCII whitespace stripped by Python `int(str)`. -/
def pyWs (c : Char) : Bool :=
  c = ' ' || c = '\t' || c = '\n' || c = '\r' || c = '\x0b' || c = '\x0c'

def pyStrip (cs : List Char) : List Char :=
  ((cs.dropWhile pyWs).reverse.dropWhile pyWs).reverse

def digitVal (c : Char) : Nat := c.toNat - 48

/-- Digits of a Python integer literal after the first: decimal digits with
single underscores allowed between digits. -/
def digitsCore : List Char → Nat → Option Nat
  | [], acc => some acc
  | c :: rest, acc =>
    if c.isDigit then digitsCore rest (acc * 10 + digitVal c)
    else if c = '_' then
      match rest with
      | [] => none
      | c2 :: rest2 => if c2.isDigit then digitsCore rest2 (acc * 10 + digitVal c2) else none
    else none

/-- A nonempty digit string (Python grammar), first character a digit. -/
def pyDigits : List Char → Option Nat
  | [] => none
  | c :: rest => if c.isDigit then digitsCore rest (digitVal c) else none

/-- Optional sign followed by digits. -/
def pySigned : List Char → Option Int
  | [] => none
  | c :: rest =>
    if c = '+' then (pyDigits rest).map (fun n => Int.ofNat n)
    else if c = '-' then (pyDigits rest).map (fun n => -(Int.ofNat n))
    else (pyDigits (c :: rest)).map (fun n => Int.ofNat n)

/-- Python `int(str)` on the ASCII fragment: strip whitespace, optional
sign, nonempty digits. -/
def pyIntParse (cs : List Char) : Option Int :=
  pySigned (pyStrip cs)

/-- One line of `load_users`: `card, passwd, balance = line.split(',')`
followed by `int(balance)`. -/
def parseLine (line : List Char) : Option User :=
  match splitOnChar ',' line with
  | [card, pw, bal] => (pyIntParse bal).map (fun b => ⟨⟨card⟩, ⟨pw⟩, b⟩)
  | _ => none

def loadLines : List (List Char) → Except LoadError (List User)
  | [] => .ok []
  | l :: rest =>
    match parseLine l with
    | none => .error .FormatError
    | some u => (loadLines rest).map (fun us => u :: us)

/-- `User.load_users`: `none` models a missing file. -/
def load_users (file : Option String) : Except LoadError (List User) :=
  match file with
  | none => .error .NotFoundError
  | some content => loadLines (pyLines (unlChars content.data))

/-- Fuel-driven digit expansion (structurally recursive so that the kernel
can evaluate it); the fuel is irrelevant as long as it exceeds `n`. -/
def natToCharsAux : Nat → Nat → List Char
  | 0, _ => []
  | fuel + 1, n =>
    if n < 10 then [Nat.digitChar n]
    else natToCharsAux fuel (n / 10) ++ [Nat.digitChar (n % 10)]

/-- Decimal digits of a natural number, most significant first (Python
`str` of a non-negative int). -/
def natToChars (n : Nat) : List Char :=
  natToCharsAux (n + 1) n

/-- Python `str` of an int. -/
def pyIntRepr (i : Int) : List Char :=
  if i < 0 then '-' :: natToChars i.natAbs else natToChars i.toNat

/-- `csv.QUOTE_MINIMAL`: a field is quoted iff it contains the delimiter,
the quote character, or a line-terminator character. -/
def csvNeedsQuote (s : List Char) : Bool :=
  s.any (fun c => c = ',' || c = '"' || c = '\r' || c = '\n')

def csvEscape : List Char → List Char
  | [] => []
  | c :: rest => if c = '"' then '"' :: '"' :: csvEscape rest else c :: csvEscape rest

def csvField (s : List Char) : List Char :=
  if csvNeedsQuote s then '"' :: (csvEscape s ++ ['"']) else s

/-- One `csv.writer` row for a user: the three fields, comma-separated,
terminated by `\r\n` (the writer's default line terminator). -/
def saveLine (u : User) : List Char :=
  csvField u.card_number.data ++
    ',' :: (csvField u.password.data ++ ',' :: (csvField (pyIntRepr u.balance) ++ ['\r', '\n']))

/-- `User.save`: the full file content written for a user list. -/
def save (users : List User) : String :=
  ⟨(users.map saveLine).flatten⟩

/-- A malformed line: it does not split on `,` into exactly three fields,
or its third field is not a valid base-10 integer. -/
def badLine (line : List Char) : Bool :=
  match splitOnChar ',' line with
  | [_, _, bal] => (pyIntParse bal).isNone
  | _ => true

def digitChars : List Char := ['0', '1', '2', '3', '4', '5', '6', '7', '8', '9']

/-- A field that `csv.writer` passes through verbatim and that a comma
split recovers exactly. -/
def goodField (s : List Char) : Prop :=
  ∀ c ∈ s, c ≠ ',' ∧ c ≠ '"' ∧ c ≠ '\r' ∧ c ≠ '\n'

/-- The unquoted body of a saved line. -/
def lineBody (u : User) : List Char :=
  u.card_number.data ++ ',' :: (u.password.data ++ ',' :: pyIntRepr u.balance)


/-! ### Basic case-analysis lemmas for the session operations -/

theorem withdraw_eq_of_auth (s : BankService) (a : Int) (i : Nat) (u : User)
    (h1 : s.current_user = some i) (h2 : s.users[i]? = some u) :
    withdraw a s =
      if a ≤ 0 ∨ u.balance < a then (false, s)
      else (true, { s with users := s.users.set i { u with balance := u.balance - a } }) := by
  simp only [withdraw, h1, h2]

theorem transfer_eq_of_auth (s : BankService) (a : Int) (c : String) (i : Nat) (u : User)
    (h1 : s.current_user = some i) (h2 : s.users[i]? = some u) :
    transfer a c s =
      if a ≤ 0 ∨ ¬ pyIsdigit c ∨ u.balance < a then (false, s)
      else (true, { s with users := s.users.set i { u with balance := u.balance - a } }) := by
  simp only [transfer, h1, h2]

theorem change_password_eq_of_auth (s : BankService) (cur new : String) (i : Nat) (u : User)
    (h1 : s.current_user = some i) (h2 : s.users[i]? = some u) :
    change_password cur new s =
      if u.password ≠ cur then (false, s)
      else (true, { s with users := s.users.set i { u with password := new } }) := by
  simp only [change_password, h1, h2]

/-- Every run of `withdraw` either succeeds with the decremented account
written back at the session index, or returns `false` on the unchanged
state. -/
theorem withdraw_cases (s : BankService) (a : Int) :
    (∃ i u, s.current_user = some i ∧ s.users[i]? = some u ∧
      ¬ (a ≤ 0 ∨ u.balance < a) ∧
      withdraw a s =
        (true, { s with users := s.users.set i { u with balance := u.balance - a } })) ∨
    withdraw a s = (false, s) := by
  rcases hc : s.current_user with _ | i
  · right; simp [withdraw, hc]
  · rcases hg : s.users[i]? with _ | u
    · right; simp [withdraw, hc, hg]
    · by_cases hcond : a ≤ 0 ∨ u.balance < a
      · right; rw [withdraw_eq_of_auth s a i u hc hg, if_pos hcond]
      · exact Or.inl ⟨i, u, rfl, hg, hcond, by
          rw [withdraw_eq_of_auth s a i u hc hg, if_neg hcond, hc]⟩

/-- Every run of `transfer` either succeeds with the decremented account
written back at the session index, or returns `false` on the unchanged
state. -/
theorem transfer_cases (s : BankService) (a : Int) (c : String) :
    (∃ i u, s.current_user = some i ∧ s.users[i]? = some u ∧
      ¬ (a ≤ 0 ∨ ¬ pyIsdigit c ∨ u.balance < a) ∧
      transfer a c s =
        (true, { s with users := s.users.set i { u with balance := u.balance - a } })) ∨
    transfer a c s = (false, s) := by
  rcases hc : s.current_user with _ | i
  · right; simp [transfer, hc]
  · rcases hg : s.users[i]? with _ | u
    · right; simp [transfer, hc, hg]
    · by_cases hcond : a ≤ 0 ∨ ¬ pyIsdigit c ∨ u.balance < a
      · right; rw [transfer_eq_of_auth s a c i u hc hg, if_pos hcond]
      · exact Or.inl ⟨i, u, rfl, hg, hcond, by
          rw [transfer_eq_of_auth s a c i u hc hg, if_neg hcond, hc]⟩

/-- Every run of `change_password` either succeeds with the re-passworded
account written back at the session index, or returns `false` on the
unchanged state. -/
theorem change_password_cases (s : BankService) (cur new : String) :
    (∃ i u, s.current_user = some i ∧ s.users[i]? = some u ∧ u.password = cur ∧
      change_password cur new s =
        (true, { s with users := s.users.set i { u with password := new } })) ∨
    change_password cur new s = (false, s) := by
  rcases hc : s.current_user with _ | i
  · right; simp [change_password, hc]
  · rcases hg : s.users[i]? with _ | u
    · right; simp [change_password, hc, hg]
    · by_cases hcond : u.password = cur
      · exact Or.inl ⟨i, u, rfl, hg, hcond, by
          rw [change_password_eq_of_auth s cur new i u hc hg, if_neg (not_not_intro hcond), hc]⟩
      · right; rw [change_password_eq_of_auth s cur new i u hc hg, if_pos hcond]

theorem authenticate_snd_users (p : String) (s : BankService) :
    (authenticate p s).2.users = s.users := by
  rcases h : findAuth p s.users with _ | q
  · simp [authenticate, h]
  · simp [authenticate, h]

theorem authenticate_fail_eq (p : String) (s : BankService)
    (h : (authenticate p s).1 = none) : (authenticate p s).2 = s := by
  rcases hf : findAuth p s.users with _ | q
  · simp [authenticate, hf]
  · simp [authenticate, hf] at h

theorem withdraw_fail_eq (s : BankService) (a : Int)
    (h : (withdraw a s).1 = false) : (withdraw a s).2 = s := by
  rcases withdraw_cases s a with ⟨i, u, _, _, _, heq⟩ | heq
  · rw [heq] at h; simp at h
  · rw [heq]

theorem transfer_fail_eq (s : BankService) (a : Int) (c : String)
    (h : (transfer a c s).1 = false) : (transfer a c s).2 = s := by
  rcases transfer_cases s a c with ⟨i, u, _, _, _, heq⟩ | heq
  · rw [heq] at h; simp at h
  · rw [heq]

theorem change_password_fail_eq (s : BankService) (cur new : String)
    (h : (change_password cur new s).1 = false) : (change_password cur new s).2 = s := by
  rcases change_password_cases s cur new with ⟨i, u, _, _, _, heq⟩ | heq
  · rw [heq] at h; simp at h
  · rw [heq]

/-! ### The balance invariant -/

theorem allNonneg_withdraw (s : BankService) (a : Int) (h : allNonneg s) :
    allNonneg (withdraw a s).2 := by
  rcases withdraw_cases s a with ⟨i, u, hc, hg, hcond, heq⟩ | heq
  · rw [heq]
    intro v hv
    rcases List.mem_or_eq_of_mem_set hv with hv' | rfl
    · exact h v hv'
    · push_neg at hcond
      show 0 ≤ u.balance - a
      omega
  · rw [heq]; exact h

theorem allNonneg_transfer (s : BankService) (a : Int) (c : String) (h : allNonneg s) :
    allNonneg (transfer a c s).2 := by
  rcases transfer_cases s a c with ⟨i, u, hc, hg, hcond, heq⟩ | heq
  · rw [heq]
    intro v hv
    rcases List.mem_or_eq_of_mem_set hv with hv' | rfl
    · exact h v hv'
    · push_neg at hcond
      show 0 ≤ u.balance - a
      omega
  · rw [heq]; exact h

theorem allNonneg_change_password (s : BankService) (cur new : String) (h : allNonneg s) :
    allNonneg (change_password cur new s).2 := by
  rcases change_password_cases s cur new with ⟨i, u, hc, hg, hcond, heq⟩ | heq
  · rw [heq]
    intro v hv
    rcases List.mem_or_eq_of_mem_set hv with hv' | rfl
    · exact h v hv'
    · exact h u (List.getElem?_mem hg)
  · rw [heq]; exact h

theorem allNonneg_withdrawSeq (amts : List Int) (s : BankService) (h : allNonneg s) :
    allNonneg (withdrawSeq amts s) := by
  induction amts generalizing s with
  | nil => exact h
  | cons a rest ih => exact ih _ (allNonneg_withdraw s a h)

/-! ### Claim theorems about the session operations -/

/-- Claim C1: on an authenticated session whose account has balance `B`,
`withdraw amount` returns `true` iff `0 < amount ≤ B`; on success the session
account's balance afterwards is exactly `B - amount`; and no sequence of
`withdraw` calls ever produces a negative balance (starting from the
non-negative states the ledger is specified to hold). -/
theorem withdraw_correct (s : BankService) (amount : Int) (i : Nat) (u : User)
    (hcur : s.current_user = some i) (hu : s.users[i]? = some u) :
    ((withdraw amount s).1 = true ↔ 0 < amount ∧ amount ≤ u.balance) ∧
    ((withdraw amount s).1 = true →
      (withdraw amount s).2.users[i]? = some { u with balance := u.balance - amount } ∧
      (withdraw amount s).2.current_user = some i) ∧
    (∀ (t : BankService) (amts : List Int), allNonneg t → allNonneg (withdrawSeq amts t)) := by
  have heq := withdraw_eq_of_auth s amount i u hcur hu
  by_cases hcond : amount ≤ 0 ∨ u.balance < amount
  · rw [heq, if_pos hcond]
    refine ⟨?_, ?_, fun t amts h => allNonneg_withdrawSeq amts t h⟩
    · simp only [Bool.false_eq_true, false_iff]
      omega
    · intro hfalse
      simp at hfalse
  · rw [heq, if_neg hcond]
    push_neg at hcond
    refine ⟨?_, ?_, fun t amts h => allNonneg_withdrawSeq amts t h⟩
    · simp only [true_iff]
      omega
    · intro _
      obtain ⟨hlt, -⟩ := List.getElem?_eq_some_iff.mp hu
      exact ⟨by simp [List.getElem?_set, hlt], hcur⟩

theorem withdraw_correct_witness :
    (0 : Int) < 500000 ∧ (500000 : Int) ≤ 500000 ∧
    (withdraw 500000
      (⟨[⟨"1111", "pass1", 1000000⟩, ⟨"2222", "pass2", 500000⟩], some 1⟩ : BankService)).1 =
      true := by
  refine ⟨by decide, by decide, ?_⟩
  exact (withdraw_correct ⟨[⟨"1111", "pass1", 1000000⟩, ⟨"2222", "pass2", 500000⟩], some 1⟩
    500000 1 ⟨"2222", "pass2", 500000⟩ rfl rfl).1.mpr ⟨by decide, by decide⟩

/-- Claim C3: starting from a state in which every balance is non-negative,
each session operation preserves the invariant, and an operation that fails
leaves the state unmutated.  (`get_balance` is embedded as a pure function
`BankService → Int`, so it cannot change the state at all.) -/
theorem operations_preserve_nonneg (s : BankService) (h : allNonneg s) :
    (∀ p, allNonneg (authenticate p s).2) ∧
    (∀ a, allNonneg (withdraw a s).2) ∧
    (∀ a c, allNonneg (transfer a c s).2) ∧
    (∀ cur np, allNonneg (change_password cur np s).2) ∧
    (∀ p, (authenticate p s).1 = none → (authenticate p s).2 = s) ∧
    (∀ a, (withdraw a s).1 = false → (withdraw a s).2 = s) ∧
    (∀ a c, (transfer a c s).1 = false → (transfer a c s).2 = s) ∧
    (∀ cur np, (change_password cur np s).1 = false → (change_password cur np s).2 = s) := by
  refine ⟨?_, fun a => allNonneg_withdraw s a h, fun a c => allNonneg_transfer s a c h,
    fun cur np => allNonneg_change_password s cur np h,
    fun p => authenticate_fail_eq p s, fun a => withdraw_fail_eq s a,
    fun a c => transfer_fail_eq s a c, fun cur np => change_password_fail_eq s cur np⟩
  intro p v hv
  rw [authenticate_snd_users p s] at hv
  exact h v hv

theorem operations_preserve_nonneg_witness :
    allNonneg (⟨[⟨"1", "a", 5⟩], some 0⟩ : BankService) ∧
    allNonneg (withdraw 3 (⟨[⟨"1", "a", 5⟩], some 0⟩ : BankService)).2 ∧
    allNonneg (transfer 2 "99" (⟨[⟨"1", "a", 5⟩], some 0⟩ : BankService)).2 := by
  have h := operations_preserve_nonneg ⟨[⟨"1", "a", 5⟩], some 0⟩ (by decide)
  exact ⟨by decide, h.2.1 3, h.2.2.1 2 "99"⟩

/-- Claim C6: whenever a mutating operation (`withdraw`, `transfer`,
`change_password`) returns `false`, the entire state — account list and
session binding — is exactly as before the call. -/
theorem failed_mutations_unchanged (s : BankService) :
    (∀ a, (withdraw a s).1 = false → (withdraw a s).2 = s) ∧
    (∀ a c, (transfer a c s).1 = false → (transfer a c s).2 = s) ∧
    (∀ cur np, (change_password cur np s).1 = false → (change_password cur np s).2 = s) :=
  ⟨fun a => withdraw_fail_eq s a, fun a c => transfer_fail_eq s a c,
   fun cur np => change_password_fail_eq s cur np⟩

theorem failed_mutations_unchanged_witness :
    (withdraw 600000 (⟨[⟨"2222", "pass2", 500000⟩], some 0⟩ : BankService)).1 = false ∧
    (withdraw 600000 (⟨[⟨"2222", "pass2", 500000⟩], some 0⟩ : BankService)).2 =
      ⟨[⟨"2222", "pass2", 500000⟩], some 0⟩ := by
  have h := failed_mutations_unchanged ⟨[⟨"2222", "pass2", 500000⟩], some 0⟩
  exact ⟨by decide, h.1 600000 (by decide)⟩

/-- Claim C10: on an authenticated session with sufficient balance, a
transfer to the empty destination card is rejected with no state change,
because Python's `"".isdigit()` is `False`. -/
theorem transfer_empty_card_rejected (s : BankService) (i : Nat) (u : User) (amount : Int)
    (hcur : s.current_user = some i) (hu : s.users[i]? = some u)
    (hpos : 0 < amount) (hle : amount ≤ u.balance) :
    (transfer amount "" s).1 = false ∧ (transfer amount "" s).2 = s := by
  have heq := transfer_eq_of_auth s amount "" i u hcur hu
  have hdig : ¬ pyIsdigit "" := by decide
  rw [heq, if_pos (Or.inr (Or.inl hdig))]
  exact ⟨rfl, rfl⟩

theorem transfer_empty_card_rejected_witness :
    (0 : Int) < 1 ∧ (1 : Int) ≤ 5 ∧
    (transfer 1 "" (⟨[⟨"1", "a", 5⟩], some 0⟩ : BankService)).1 = false := by
  refine ⟨by decide, by decide, ?_⟩
  exact (transfer_empty_card_rejected ⟨[⟨"1", "a", 5⟩], some 0⟩ 0 ⟨"1", "a", 5⟩ 1
    rfl rfl (by decide) (by decide)).1

/-! ### The authentication scan -/

theorem findAuth_eq_none (p : String) (l : List User) :
    findAuth p l = none ↔ ∀ u ∈ l, u.password ≠ p := by
  induction l with
  | nil => simp [findAuth]
  | cons x rest ih =>
    by_cases hx : x.password = p
    · simp [findAuth, hx]
    · simp [findAuth, hx, ih]

theorem findAuth_spec (p : String) (l : List User) (i : Nat) (u : User)
    (h : findAuth p l = some (i, u)) :
    l[i]? = some u ∧ u.password = p ∧
    ∀ j v, j < i → l[j]? = some v → v.password ≠ p := by
  induction l generalizing i with
  | nil => simp [findAuth] at h
  | cons x rest ih =>
    by_cases hx : x.password = p
    · simp [findAuth, hx] at h
      obtain ⟨hi, hu⟩ := h
      rw [← hi, ← hu]
      exact ⟨by simp, hx, fun j v hj => absurd hj (Nat.not_lt_zero j)⟩
    · simp only [findAuth, hx, if_false, Option.map_eq_some'] at h
      obtain ⟨⟨i2, u2⟩, hrest, hq⟩ := h
      obtain ⟨rfl, rfl⟩ : i2 + 1 = i ∧ u2 = u := by simpa using hq
      obtain ⟨h1, h2, h3⟩ := ih i2 hrest
      refine ⟨by simpa using h1, h2, ?_⟩
      intro j v hj hjv
      cases j with
      | zero =>
        have hv : x = v := by simpa using hjv
        rw [← hv]
        exact hx
      | succ j2 => exact h3 j2 v (Nat.lt_of_succ_lt_succ hj) (by simpa using hjv)

theorem set_get_self (l : List User) (i : Nat) (u w : User) (hg : l[i]? = some u) :
    (l.set i w)[i]? = some w := by
  obtain ⟨hlt, -⟩ := List.getElem?_eq_some_iff.mp hg
  simp [List.getElem?_set, hlt]

/-- Claim C4: `authenticate p` returns the first account in store order
whose password exactly equals `p` and binds the session to it; on failure
it returns `none` and leaves the whole state (including any prior session
binding) unchanged. -/
theorem authenticate_correct (s : BankService) (p : String) :
    ((authenticate p s).1 = none ↔ ∀ u ∈ s.users, u.password ≠ p) ∧
    ((authenticate p s).1 = none → (authenticate p s).2 = s) ∧
    (∀ u, (authenticate p s).1 = some u →
      ∃ i, s.users[i]? = some u ∧ u.password = p ∧
        (∀ j v, j < i → s.users[j]? = some v → v.password ≠ p) ∧
        (authenticate p s).2 = { s with current_user := some i }) := by
  rcases hf : findAuth p s.users with _ | ⟨i, u⟩
  · have ha : authenticate p s = (none, s) := by simp [authenticate, hf]
    rw [ha]
    refine ⟨⟨fun _ => (findAuth_eq_none p s.users).mp hf, fun _ => rfl⟩, fun _ => rfl, ?_⟩
    intro u hu
    simp at hu
  · have ha : authenticate p s = (some u, { s with current_user := some i }) := by
      simp [authenticate, hf]
    rw [ha]
    obtain ⟨h1, h2, h3⟩ := findAuth_spec p s.users i u hf
    refine ⟨⟨fun hnone => by simp at hnone,
      fun hall => absurd h2 (hall u (List.getElem?_mem h1))⟩,
      fun hnone => by simp at hnone, ?_⟩
    intro v hv
    have huv : u = v := by simpa using hv
    subst huv
    exact ⟨i, h1, h2, h3, rfl⟩

theorem authenticate_correct_witness :
    (authenticate "x" (⟨[⟨"1", "a", 5⟩], some 0⟩ : BankService)).1 = none ∧
    (authenticate "x" (⟨[⟨"1", "a", 5⟩], some 0⟩ : BankService)).2 = ⟨[⟨"1", "a", 5⟩], some 0⟩ :=
  ⟨by decide, (authenticate_correct ⟨[⟨"1", "a", 5⟩], some 0⟩ "x").2.1 (by decide)⟩

/-- Python's `str.isdigit` (ASCII fragment) seen as a proposition. -/
theorem pyIsdigit_iff (c : String) :
    pyIsdigit c = true ↔ c.data ≠ [] ∧ ∀ ch ∈ c.data, ch.isDigit := by
  simp [pyIsdigit, List.all_eq_true, List.isEmpty_iff]

/-- Counterexample to claim C2 as stated: on an authenticated session with
balance `5`, `transfer 1 ""` returns `false` even though `0 < 1 ≤ 5` and the
empty destination card vacuously consists only of decimal digit characters
(Python's `"".isdigit()` is `False`, so the code rejects it). -/
theorem transfer_correct_cex :
    (⟨[⟨"1", "a", 5⟩], some 0⟩ : BankService).current_user = some 0 ∧
    ([⟨"1", "a", 5⟩] : List User)[0]? = some ⟨"1", "a", 5⟩ ∧
    (0 : Int) < 1 ∧ (1 : Int) ≤ 5 ∧
    ("" : String).data.all Char.isDigit = true ∧
    (transfer 1 "" (⟨[⟨"1", "a", 5⟩], some 0⟩ : BankService)).1 = false := by
  decide

/-- Claim C2 (amended): `transfer amount card` returns `true` iff the
session is authenticated, `0 < amount ≤ B`, and `card` is nonempty and
consists only of decimal digit characters; on success it decrements only
the session account's balance and changes no other account. -/
theorem transfer_correct (s : BankService) (amount : Int) (card : String) :
    ((transfer amount card s).1 = true ↔
      ∃ i u, s.current_user = some i ∧ s.users[i]? = some u ∧
        0 < amount ∧ amount ≤ u.balance ∧
        card.data ≠ [] ∧ ∀ ch ∈ card.data, ch.isDigit) ∧
    (∀ i u, s.current_user = some i → s.users[i]? = some u →
      (transfer amount card s).1 = true →
      (transfer amount card s).2.users = s.users.set i { u with balance := u.balance - amount } ∧
      (transfer amount card s).2.current_user = some i ∧
      ∀ j, j ≠ i → (transfer amount card s).2.users[j]? = s.users[j]?) := by
  constructor
  · constructor
    · intro ht
      rcases transfer_cases s amount card with ⟨i, u, hc, hg, hcond, heq⟩ | heq
      · push_neg at hcond
        obtain ⟨h1, h2, h3⟩ := hcond
        obtain ⟨hne, hall⟩ := (pyIsdigit_iff card).mp h2
        exact ⟨i, u, hc, hg, h1, h3, hne, hall⟩
      · rw [heq] at ht
        simp at ht
    · rintro ⟨i, u, hc, hg, hpos, hle, hne, hall⟩
      have hd : pyIsdigit card = true := (pyIsdigit_iff card).mpr ⟨hne, hall⟩
      rw [transfer_eq_of_auth s amount card i u hc hg,
        if_neg (by push_neg; exact ⟨hpos, hd, not_lt.mp (not_lt.mpr hle)⟩)]
  · intro i u hc hg ht
    have heq := transfer_eq_of_auth s amount card i u hc hg
    by_cases hcond : amount ≤ 0 ∨ ¬ pyIsdigit card ∨ u.balance < amount
    · rw [heq, if_pos hcond] at ht
      simp at ht
    · rw [heq, if_neg hcond]
      exact ⟨rfl, hc, fun j hj => List.getElem?_set_ne (Ne.symm hj)⟩

theorem transfer_correct_witness :
    (transfer 100 "1234" (⟨[⟨"1111", "pass1", 1000000⟩], some 0⟩ : BankService)).1 = true ∧
    (transfer 100 "1234" (⟨[⟨"1111", "pass1", 1000000⟩], some 0⟩ : BankService)).2.users =
      [⟨"1111", "pass1", 999900⟩] := by
  have h := transfer_correct ⟨[⟨"1111", "pass1", 1000000⟩], some 0⟩ 100 "1234"
  have ht : (transfer 100 "1234" (⟨[⟨"1111", "pass1", 1000000⟩], some 0⟩ : BankService)).1 =
      true :=
    h.1.mpr ⟨0, ⟨"1111", "pass1", 1000000⟩, rfl, rfl, by decide, by decide, by decide, by decide⟩
  refine ⟨ht, ?_⟩
  rw [(h.2 0 ⟨"1111", "pass1", 1000000⟩ rfl rfl ht).1]
  decide

/-- Counterexample to claim C7 as stated: with a single account of password
`"a"`, `change_password "a" "a"` succeeds (with `new = cur`), `"a"` is not
shared with any other account, and yet `authenticate "a"` immediately
afterwards still matches that same account. -/
theorem change_password_correct_cex :
    (change_password "a" "a" (⟨[⟨"1", "a", 5⟩], some 0⟩ : BankService)).1 = true ∧
    (change_password "a" "a" (⟨[⟨"1", "a", 5⟩], some 0⟩ : BankService)).2.users.length = 1 ∧
    (authenticate "a" (change_password "a" "a" (⟨[⟨"1", "a", 5⟩], some 0⟩ : BankService)).2).1 =
      some ⟨"1", "a", 5⟩ ∧
    (authenticate "a"
        (change_password "a" "a" (⟨[⟨"1", "a", 5⟩], some 0⟩ : BankService)).2).2.current_user =
      some 0 := by
  decide

/-- Claim C7 (amended): `change_password cur new` succeeds iff the session
is authenticated and `cur` equals the stored password; on success the stored
password becomes exactly `new` (any string, empty included), so that
`authenticate new` succeeds afterwards, and — provided `new ≠ cur` —
`authenticate cur` no longer binds to that account. -/
theorem change_password_correct (s : BankService) (cur np : String) :
    ((change_password cur np s).1 = true ↔
      ∃ i u, s.current_user = some i ∧ s.users[i]? = some u ∧ u.password = cur) ∧
    (∀ i u, s.current_user = some i → s.users[i]? = some u → u.password = cur →
      (change_password cur np s).2.users[i]? = some { u with password := np } ∧
      (∃ v, (authenticate np (change_password cur np s).2).1 = some v) ∧
      (np ≠ cur → ∀ r, (authenticate cur (change_password cur np s).2).1 = some r →
        (authenticate cur (change_password cur np s).2).2.current_user ≠ some i)) := by
  constructor
  · constructor
    · intro ht
      rcases change_password_cases s cur np with ⟨i, u, hc, hg, hcond, heq⟩ | heq
      · exact ⟨i, u, hc, hg, hcond⟩
      · rw [heq] at ht
        simp at ht
    · rintro ⟨i, u, hc, hg, hpw⟩
      rw [change_password_eq_of_auth s cur np i u hc hg, if_neg (not_not_intro hpw)]
  · intro i u hc hg hpw
    have hS : (change_password cur np s).2 =
        (⟨s.users.set i { u with password := np }, some i⟩ : BankService) := by
      rw [change_password_eq_of_auth s cur np i u hc hg, if_neg (not_not_intro hpw)]
      show ({ s with users := s.users.set i { u with password := np } } : BankService) = _
      rw [show s.current_user = some i from hc]
    rw [hS]
    refine ⟨set_get_self s.users i u _ hg, ?_, ?_⟩
    · rcases hf : findAuth np (s.users.set i { u with password := np }) with _ | ⟨j, v⟩
      · have hmem : ({ u with password := np } : User) ∈ s.users.set i { u with password := np } :=
          List.getElem?_mem (set_get_self s.users i u _ hg)
        exact absurd rfl ((findAuth_eq_none np _).mp hf _ hmem)
      · exact ⟨v, by simp [authenticate, hf]⟩
    · intro hne r hr
      rcases hf : findAuth cur (s.users.set i { u with password := np }) with _ | ⟨j, v⟩
      · simp [authenticate, hf] at hr
      · obtain ⟨hj1, hj2, -⟩ := findAuth_spec cur _ j v hf
        have hbind :
            (authenticate cur
              (⟨s.users.set i { u with password := np }, some i⟩ : BankService)).2.current_user =
              some j := by
          simp [authenticate, hf]
        rw [hbind]
        intro hcontra
        have hji : j = i := by simpa using hcontra
        rw [hji] at hj1
        have hj1s : some ({ u with password := np } : User) = some v :=
          (set_get_self s.users i u _ hg).symm.trans hj1
        have hv : ({ u with password := np } : User) = v := by simpa using hj1s
        rw [← hv] at hj2
        exact hne (by simpa using hj2)

theorem change_password_correct_witness :
    (change_password "a" "b" (⟨[⟨"1", "a", 5⟩], some 0⟩ : BankService)).1 = true ∧
    (change_password "a" "b" (⟨[⟨"1", "a", 5⟩], some 0⟩ : BankService)).2.users[0]? =
      some ⟨"1", "b", 5⟩ := by
  have h := change_password_correct ⟨[⟨"1", "a", 5⟩], some 0⟩ "a" "b"
  exact ⟨h.1.mpr ⟨0, ⟨"1", "a", 5⟩, rfl, rfl, rfl⟩, (h.2 0 ⟨"1", "a", 5⟩ rfl rfl rfl).1⟩

theorem withdraw_frame (s : BankService) (a : Int) :
    (withdraw a s).2.users.length = s.users.length ∧
    (withdraw a s).2.current_user = s.current_user ∧
    (∀ j, s.current_user ≠ some j → (withdraw a s).2.users[j]? = s.users[j]?) ∧
    (∀ j u v, s.current_user = some j → s.users[j]? = some u →
      (withdraw a s).2.users[j]? = some v →
      v.card_number = u.card_number ∧ v.password = u.password) := by
  rcases withdraw_cases s a with ⟨i, u, hc, hg, hcond, heq⟩ | heq
  · rw [heq]
    refine ⟨by simp, rfl, ?_, ?_⟩
    · intro j hj
      refine List.getElem?_set_ne fun h => hj ?_
      rw [← h]
      exact hc
    · intro j u2 v hcj hgj hv
      have hij : i = j := by simpa using hc.symm.trans hcj
      have hu2 : u2 = u := by
        rw [← hij] at hgj
        simpa using hgj.symm.trans hg
      have hsv : (s.users.set i { u with balance := u.balance - a })[j]? =
          some { u with balance := u.balance - a } := by
        rw [← hij]
        exact set_get_self s.users i u _ hg
      have hv2 : ({ u with balance := u.balance - a } : User) = v := by
        simpa using hsv.symm.trans hv
      rw [hu2, ← hv2]
      exact ⟨rfl, rfl⟩
  · rw [heq]
    refine ⟨rfl, rfl, fun j _ => rfl, ?_⟩
    intro j u2 v _ hgj hv
    have huv : u2 = v := by simpa using hgj.symm.trans hv
    rw [← huv]
    exact ⟨rfl, rfl⟩

theorem transfer_frame (s : BankService) (a : Int) (c : String) :
    (transfer a c s).2.users.length = s.users.length ∧
    (transfer a c s).2.current_user = s.current_user ∧
    (∀ j, s.current_user ≠ some j → (transfer a c s).2.users[j]? = s.users[j]?) ∧
    (∀ j u v, s.current_user = some j → s.users[j]? = some u →
      (transfer a c s).2.users[j]? = some v →
      v.card_number = u.card_number ∧ v.password = u.password) := by
  rcases transfer_cases s a c with ⟨i, u, hc, hg, hcond, heq⟩ | heq
  · rw [heq]
    refine ⟨by simp, rfl, ?_, ?_⟩
    · intro j hj
      refine List.getElem?_set_ne fun h => hj ?_
      rw [← h]
      exact hc
    · intro j u2 v hcj hgj hv
      have hij : i = j := by simpa using hc.symm.trans hcj
      have hu2 : u2 = u := by
        rw [← hij] at hgj
        simpa using hgj.symm.trans hg
      have hsv : (s.users.set i { u with balance := u.balance - a })[j]? =
          some { u with balance := u.balance - a } := by
        rw [← hij]
        exact set_get_self s.users i u _ hg
      have hv2 : ({ u with balance := u.balance - a } : User) = v := by
        simpa using hsv.symm.trans hv
      rw [hu2, ← hv2]
      exact ⟨rfl, rfl⟩
  · rw [heq]
    refine ⟨rfl, rfl, fun j _ => rfl, ?_⟩
    intro j u2 v _ hgj hv
    have huv : u2 = v := by simpa using hgj.symm.trans hv
    rw [← huv]
    exact ⟨rfl, rfl⟩

theorem change_password_frame (s : BankService) (cur np : String) :
    (change_password cur np s).2.users.length = s.users.length ∧
    (change_password cur np s).2.current_user = s.current_user ∧
    (∀ j, s.current_user ≠ some j → (change_password cur np s).2.users[j]? = s.users[j]?) ∧
    (∀ j u v, s.current_user = some j → s.users[j]? = some u →
      (change_password cur np s).2.users[j]? = some v →
      v.card_number = u.card_number ∧ v.balance = u.balance) := by
  rcases change_password_cases s cur np with ⟨i, u, hc, hg, hcond, heq⟩ | heq
  · rw [heq]
    refine ⟨by simp, rfl, ?_, ?_⟩
    · intro j hj
      refine List.getElem?_set_ne fun h => hj ?_
      rw [← h]
      exact hc
    · intro j u2 v hcj hgj hv
      have hij : i = j := by simpa using hc.symm.trans hcj
      have hu2 : u2 = u := by
        rw [← hij] at hgj
        simpa using hgj.symm.trans hg
      have hsv : (s.users.set i { u with password := np })[j]? =
          some { u with password := np } := by
        rw [← hij]
        exact set_get_self s.users i u _ hg
      have hv2 : ({ u with password := np } : User) = v := by
        simpa using hsv.symm.trans hv
      rw [hu2, ← hv2]
      exact ⟨rfl, rfl⟩
  · rw [heq]
    refine ⟨rfl, rfl, fun j _ => rfl, ?_⟩
    intro j u2 v _ hgj hv
    have huv : u2 = v := by simpa using hgj.symm.trans hv
    rw [← huv]
    exact ⟨rfl, rfl⟩

/-- Claim C9: no session operation changes the number or the order of the
accounts; every account other than the session account keeps all its fields;
at the session index `withdraw`/`transfer` can change only the balance and
`change_password` only the password, while `authenticate` changes no account
at all.  (`get_balance` is a pure function and has no state output.) -/
theorem operations_frame (s : BankService) (p : String) (a : Int) (c cur np : String) :
    (authenticate p s).2.users = s.users ∧
    (withdraw a s).2.users.length = s.users.length ∧
    (withdraw a s).2.current_user = s.current_user ∧
    (∀ j, s.current_user ≠ some j → (withdraw a s).2.users[j]? = s.users[j]?) ∧
    (∀ j u v, s.current_user = some j → s.users[j]? = some u →
      (withdraw a s).2.users[j]? = some v →
      v.card_number = u.card_number ∧ v.password = u.password) ∧
    (transfer a c s).2.users.length = s.users.length ∧
    (transfer a c s).2.current_user = s.current_user ∧
    (∀ j, s.current_user ≠ some j → (transfer a c s).2.users[j]? = s.users[j]?) ∧
    (∀ j u v, s.current_user = some j → s.users[j]? = some u →
      (transfer a c s).2.users[j]? = some v →
      v.card_number = u.card_number ∧ v.password = u.password) ∧
    (change_password cur np s).2.users.length = s.users.length ∧
    (change_password cur np s).2.current_user = s.current_user ∧
    (∀ j, s.current_user ≠ some j → (change_password cur np s).2.users[j]? = s.users[j]?) ∧
    (∀ j u v, s.current_user = some j → s.users[j]? = some u →
      (change_password cur np s).2.users[j]? = some v →
      v.card_number = u.card_number ∧ v.balance = u.balance) := by
  obtain ⟨w1, w2, w3, w4⟩ := withdraw_frame s a
  obtain ⟨t1, t2, t3, t4⟩ := transfer_frame s a c
  obtain ⟨q1, q2, q3, q4⟩ := change_password_frame s cur np
  exact ⟨authenticate_snd_users p s, w1, w2, w3, w4, t1, t2, t3, t4, q1, q2, q3, q4⟩

theorem operations_frame_witness :
    (withdraw 2 (⟨[⟨"1", "a", 5⟩, ⟨"2", "b", 7⟩], some 0⟩ : BankService)).2.users[1]? =
      some ⟨"2", "b", 7⟩ := by
  have h := operations_frame ⟨[⟨"1", "a", 5⟩, ⟨"2", "b", 7⟩], some 0⟩ "p" 2 "99" "a" "b"
  exact h.2.2.2.1 1 (by decide)

/-! ### Lemmas about splitting, lines, and newline translation -/

theorem splitOnChar_cons (sep c : Char) (rest : List Char) :
    splitOnChar sep (c :: rest) =
      if c = sep then [] :: splitOnChar sep rest
      else
        match splitOnChar sep rest with
        | [] => [[c]]
        | g :: gs => (c :: g) :: gs := rfl

theorem splitOnChar_ne_nil (sep : Char) (cs : List Char) : splitOnChar sep cs ≠ [] := by
  cases cs with
  | nil => simp [splitOnChar]
  | cons c rest =>
    rw [splitOnChar_cons]
    by_cases h : c = sep
    · simp [h]
    · cases hs : splitOnChar sep rest with
      | nil => simp [h, hs]
      | cons g gs => simp [h, hs]

theorem mem_of_mem_splitOnChar (sep : Char) (cs g : List Char) (c : Char)
    (hg : g ∈ splitOnChar sep cs) (hc : c ∈ g) : c ∈ cs := by
  induction cs generalizing g with
  | nil =>
    simp [splitOnChar] at hg
    subst hg
    simp at hc
  | cons d rest ih =>
    rw [splitOnChar_cons] at hg
    by_cases hd : d = sep
    · rw [if_pos hd] at hg
      rcases List.mem_cons.mp hg with rfl | hg2
      · simp at hc
      · exact List.mem_cons_of_mem d (ih g hg2 hc)
    · rw [if_neg hd] at hg
      cases hs : splitOnChar sep rest with
      | nil => exact absurd hs (splitOnChar_ne_nil sep rest)
      | cons g0 gs =>
        rw [hs] at hg
        rcases List.mem_cons.mp hg with rfl | hg2
        · rcases List.mem_cons.mp hc with rfl | hc2
          · exact List.mem_cons_self c rest
          · exact List.mem_cons_of_mem d (ih g0 (hs ▸ List.mem_cons_self g0 gs) hc2)
        · exact List.mem_cons_of_mem d (ih g (hs ▸ List.mem_cons_of_mem g0 hg2) hc)

theorem sep_not_mem_splitOnChar (sep : Char) (cs g : List Char)
    (hg : g ∈ splitOnChar sep cs) : sep ∉ g := by
  induction cs generalizing g with
  | nil =>
    simp [splitOnChar] at hg
    subst hg
    simp
  | cons d rest ih =>
    rw [splitOnChar_cons] at hg
    by_cases hd : d = sep
    · rw [if_pos hd] at hg
      rcases List.mem_cons.mp hg with rfl | hg2
      · simp
      · exact ih g hg2
    · rw [if_neg hd] at hg
      cases hs : splitOnChar sep rest with
      | nil => exact absurd hs (splitOnChar_ne_nil sep rest)
      | cons g0 gs =>
        rw [hs] at hg
        rcases List.mem_cons.mp hg with rfl | hg2
        · intro hmem
          rcases List.mem_cons.mp hmem with h | h
          · exact hd h.symm
          · exact ih g0 (hs ▸ List.mem_cons_self g0 gs) h
        · exact ih g (hs ▸ List.mem_cons_of_mem g0 hg2)

theorem splitOnChar_append (sep : Char) (A B : List Char) (hA : sep ∉ A) :
    splitOnChar sep (A ++ sep :: B) = A :: splitOnChar sep B := by
  induction A with
  | nil => simp [splitOnChar_cons]
  | cons a A2 ih =>
    have ha : a ≠ sep := fun h => hA (h ▸ List.mem_cons_self a A2)
    have hA2 : sep ∉ A2 := fun h => hA (List.mem_cons_of_mem a h)
    rw [List.cons_append, splitOnChar_cons, if_neg ha, ih hA2]

theorem splitOnChar_no_sep (sep : Char) (A : List Char) (hA : sep ∉ A) :
    splitOnChar sep A = [A] := by
  induction A with
  | nil => rfl
  | cons a A2 ih =>
    have ha : a ≠ sep := fun h => hA (h ▸ List.mem_cons_self a A2)
    have hA2 : sep ∉ A2 := fun h => hA (List.mem_cons_of_mem a h)
    rw [splitOnChar_cons, if_neg ha, ih hA2]

theorem pyLines_append (body rest : List Char) (hb : '\n' ∉ body) :
    pyLines (body ++ '\n' :: rest) = body :: pyLines rest := by
  cases hrest : rest with
  | nil =>
    have hne : ¬ (body ++ ['\n'] = []) := by simp
    have hlast : (body ++ ['\n']).getLast? = some '\n' := List.getLast?_concat body
    simp only [pyLines, hne, hlast, if_false, if_true, reduceIte]
    rw [splitOnChar_append '\n' body [] hb]
    simp [splitOnChar]
  | cons r rs =>
    have hne : ¬ (body ++ '\n' :: r :: rs = []) := by simp
    have hne2 : ¬ (r :: rs = ([] : List Char)) := by simp
    have hlast : (body ++ '\n' :: r :: rs).getLast? = (r :: rs).getLast? := by
      rw [List.getLast?_append]
      have h2 : ('\n' :: r :: rs).getLast? = (r :: rs).getLast? := List.getLast?_cons_cons
      rw [h2]
      cases hg : (r :: rs).getLast? with
      | none => simp [List.getLast?_eq_none_iff] at hg
      | some x => simp
    have hsplit : splitOnChar '\n' (body ++ '\n' :: r :: rs) =
        body :: splitOnChar '\n' (r :: rs) := splitOnChar_append '\n' body (r :: rs) hb
    by_cases hl : (r :: rs).getLast? = some '\n'
    · simp only [pyLines, hne, hne2, hlast, hl, if_false, if_true, reduceIte, hsplit]
      rw [List.dropLast_cons_of_ne_nil (splitOnChar_ne_nil '\n' (r :: rs))]
    · simp only [pyLines, hne, hne2, hlast, hl, if_false, reduceIte, hsplit]

theorem unlChars_cons_ne (b : Char) (hb : b ≠ '\r') (X : List Char) :
    unlChars (b :: X) = b :: unlChars X := by
  cases X with
  | nil => simp [unlChars, hb]
  | cons x xs => simp [unlChars, hb]

theorem unlChars_crlf (X : List Char) : unlChars ('\r' :: '\n' :: X) = '\n' :: unlChars X := by
  simp [unlChars]

theorem unlChars_append_line (body rest : List Char) (hb : '\r' ∉ body) :
    unlChars (body ++ '\r' :: '\n' :: rest) = body ++ '\n' :: unlChars rest := by
  induction body with
  | nil => simpa using unlChars_crlf rest
  | cons b bs ih =>
    have hbne : b ≠ '\r' := fun h => hb (h ▸ List.mem_cons_self b bs)
    have hbs : '\r' ∉ bs := fun h => hb (List.mem_cons_of_mem b h)
    rw [List.cons_append, unlChars_cons_ne b hbne, ih hbs, List.cons_append]

theorem unlChars_no_cr : ∀ (cs : List Char), '\r' ∉ unlChars cs
  | [] => by simp [unlChars]
  | c :: rest => by
    by_cases hc : c = '\r'
    · subst hc
      cases rest with
      | nil => decide
      | cons c2 rest2 =>
        by_cases hc2 : c2 = '\n'
        · subst hc2
          rw [unlChars_crlf]
          intro hmem
          rcases List.mem_cons.mp hmem with h | h
          · exact (by decide : ('\r' : Char) ≠ '\n') h
          · exact unlChars_no_cr rest2 h
        · rw [show unlChars ('\r' :: c2 :: rest2) = '\n' :: unlChars (c2 :: rest2) from by
            simp [unlChars, hc2]]
          intro hmem
          rcases List.mem_cons.mp hmem with h | h
          · exact (by decide : ('\r' : Char) ≠ '\n') h
          · exact unlChars_no_cr (c2 :: rest2) h
    · rw [unlChars_cons_ne c hc rest]
      intro hmem
      rcases List.mem_cons.mp hmem with h | h
      · exact hc h.symm
      · exact unlChars_no_cr rest h

theorem mem_of_mem_pyLines (X l : List Char) (hl : l ∈ pyLines X) (c : Char) (hc : c ∈ l) :
    c ∈ X := by
  by_cases h0 : X = []
  · simp [pyLines, h0] at hl
  · by_cases h1 : X.getLast? = some '\n'
    · simp only [pyLines, h0, h1, if_false, if_true, reduceIte] at hl
      exact mem_of_mem_splitOnChar '\n' X l c (List.dropLast_subset _ hl) hc
    · simp only [pyLines, h0, h1, if_false, reduceIte] at hl
      exact mem_of_mem_splitOnChar '\n' X l c hl hc

theorem nl_not_mem_pyLines (X l : List Char) (hl : l ∈ pyLines X) : '\n' ∉ l := by
  by_cases h0 : X = []
  · simp [pyLines, h0] at hl
  · by_cases h1 : X.getLast? = some '\n'
    · simp only [pyLines, h0, h1, if_false, if_true, reduceIte] at hl
      exact sep_not_mem_splitOnChar '\n' X l (List.dropLast_subset _ hl)
    · simp only [pyLines, h0, h1, if_false, reduceIte] at hl
      exact sep_not_mem_splitOnChar '\n' X l hl

/-! ### Claim C8: the load-time error taxonomy -/

theorem parseLine_none_iff (l : List Char) : parseLine l = none ↔ badLine l = true := by
  cases hsp : splitOnChar ',' l with
  | nil => simp [parseLine, badLine, hsp]
  | cons a t1 =>
    cases t1 with
    | nil => simp [parseLine, badLine, hsp]
    | cons b t2 =>
      cases t2 with
      | nil => simp [parseLine, badLine, hsp]
      | cons c t3 =>
        cases t3 with
        | nil => simp [parseLine, badLine, hsp, Option.isNone_iff_eq_none]
        | cons d t4 => simp [parseLine, badLine, hsp]

theorem loadLines_formatError_iff (ls : List (List Char)) :
    loadLines ls = .error .FormatError ↔ ∃ l ∈ ls, badLine l = true := by
  induction ls with
  | nil => simp [loadLines]
  | cons l rest ih =>
    cases hp : parseLine l with
    | none =>
      have h1 : loadLines (l :: rest) = .error .FormatError := by simp [loadLines, hp]
      rw [h1]
      constructor
      · intro _
        exact ⟨l, List.mem_cons_self l rest, (parseLine_none_iff l).mp hp⟩
      · intro _
        rfl
    | some u =>
      have h1 : loadLines (l :: rest) = (loadLines rest).map (fun us => u :: us) := by
        simp [loadLines, hp]
      have hbadl : badLine l = false := by
        by_contra hb
        have hb2 : badLine l = true := by revert hb; cases badLine l <;> simp
        rw [(parseLine_none_iff l).mpr hb2] at hp
        exact Option.noConfusion hp
      rw [h1]
      constructor
      · intro hmap
        cases hr : loadLines rest with
        | ok us =>
          rw [hr] at hmap
          simp [Except.map] at hmap
        | error e =>
          rw [hr] at hmap
          simp [Except.map] at hmap
          obtain ⟨l2, hl2, hb2⟩ := ih.mp (by rw [hr, hmap])
          exact ⟨l2, List.mem_cons_of_mem l hl2, hb2⟩
      · rintro ⟨l2, hl2, hb2⟩
        rcases List.mem_cons.mp hl2 with rfl | hl2r
        · rw [hbadl] at hb2
          exact Bool.noConfusion hb2
        · rw [ih.mpr ⟨l2, hl2r, hb2⟩]
          rfl

theorem loadLines_ne_notFound (ls : List (List Char)) :
    loadLines ls ≠ .error .NotFoundError := by
  induction ls with
  | nil => simp [loadLines]
  | cons l rest ih =>
    cases hp : parseLine l with
    | none => simp [loadLines, hp]
    | some u =>
      have h1 : loadLines (l :: rest) = (loadLines rest).map (fun us => u :: us) := by
        simp [loadLines, hp]
      rw [h1]
      cases hr : loadLines rest with
      | ok us => simp [Except.map]
      | error e =>
        intro hcontra
        simp [Except.map] at hcontra
        exact ih (by rw [hr, hcontra])

/-- Claim C8: `load` fails with `FormatError` exactly when some line is
malformed (wrong field count, or a third field Python `int(...)` rejects),
with `NotFoundError` exactly when the file is missing, and an error never
comes with a partial account list. -/
theorem load_users_errors (file : Option String) :
    (load_users file = .error .NotFoundError ↔ file = none) ∧
    (load_users file = .error .FormatError ↔
      ∃ content, file = some content ∧
        ∃ line ∈ pyLines (unlChars content.data), badLine line = true) ∧
    (∀ e us, load_users file = .error e → load_users file ≠ .ok us) := by
  refine ⟨?_, ?_, ?_⟩
  · cases file with
    | none => simp [load_users]
    | some content =>
      simp only [load_users]
      constructor
      · intro h
        exact absurd h (loadLines_ne_notFound _)
      · intro h
        exact Option.noConfusion h
  · cases file with
    | none => simp [load_users]
    | some content =>
      simp only [load_users]
      rw [loadLines_formatError_iff]
      constructor
      · rintro ⟨l, hl, hb⟩
        exact ⟨content, rfl, l, hl, hb⟩
      · rintro ⟨c2, hc2, l, hl, hb⟩
        cases hc2
        exact ⟨l, hl, hb⟩
  · intro e us he hok
    rw [he] at hok
    exact Except.noConfusion hok

theorem load_users_errors_witness :
    load_users none = .error .NotFoundError ∧
    load_users (some "1111,pass1,notanumber") = .error .FormatError ∧
    load_users (some "1111,pass1,5") = .ok [⟨"1111", "pass1", 5⟩] := by
  refine ⟨(load_users_errors none).1.mpr rfl, ?_, by decide⟩
  exact (load_users_errors (some "1111,pass1,notanumber")).2.1.mpr
    ⟨"1111,pass1,notanumber", rfl, "1111,pass1,notanumber".data, by decide, by decide⟩

/-! ### Integer printing and re-parsing -/

theorem digitChar_mem (m : Nat) (h : m < 10) : Nat.digitChar m ∈ digitChars := by
  interval_cases m <;> decide

theorem digitChars_props (c : Char) (h : c ∈ digitChars) :
    c.isDigit = true ∧ pyWs c = false ∧ c ≠ ',' ∧ c ≠ '"' ∧ c ≠ '\r' ∧ c ≠ '\n' ∧
      c ≠ '+' ∧ c ≠ '-' := by
  fin_cases h <;> exact ⟨by decide, by decide, by decide, by decide, by decide, by decide,
    by decide, by decide⟩

theorem digitVal_digitChar (m : Nat) (h : m < 10) : digitVal (Nat.digitChar m) = m := by
  interval_cases m <;> decide

theorem natToCharsAux_irrel : ∀ (f1 f2 n : Nat), n < f1 → n < f2 →
    natToCharsAux f1 n = natToCharsAux f2 n
  | 0, _, n, h1, _ => absurd h1 (Nat.not_lt_zero n)
  | _ + 1, 0, n, _, h2 => absurd h2 (Nat.not_lt_zero n)
  | f1 + 1, f2 + 1, n, h1, h2 => by
    simp only [natToCharsAux]
    by_cases h : n < 10
    · simp [h]
    · simp only [h, if_false, reduceIte]
      have hd : n / 10 < n := Nat.div_lt_self (by omega) (by decide)
      rw [natToCharsAux_irrel f1 f2 (n / 10) (by omega) (by omega)]

theorem natToChars_eq (n : Nat) :
    natToChars n = if n < 10 then [Nat.digitChar n]
      else natToChars (n / 10) ++ [Nat.digitChar (n % 10)] := by
  conv_lhs => rw [show natToChars n = natToCharsAux (n + 1) n from rfl]
  rw [show natToCharsAux (n + 1) n =
      if n < 10 then [Nat.digitChar n] else natToCharsAux n (n / 10) ++ [Nat.digitChar (n % 10)]
    from rfl]
  by_cases h : n < 10
  · rw [if_pos h, if_pos h]
  · rw [if_neg h, if_neg h,
      natToCharsAux_irrel n (n / 10 + 1) (n / 10) (Nat.div_lt_self (by omega) (by decide))
        (by omega)]
    rfl

theorem natToChars_mem (n : Nat) : ∀ c ∈ natToChars n, c ∈ digitChars := by
  induction n using Nat.strong_induction_on with
  | _ n ih =>
    intro c hc
    rw [natToChars_eq] at hc
    by_cases h : n < 10
    · rw [if_pos h] at hc
      simp at hc
      subst hc
      exact digitChar_mem n h
    · rw [if_neg h] at hc
      rcases List.mem_append.mp hc with h1 | h1
      · exact ih (n / 10) (Nat.div_lt_self (by omega) (by decide)) c h1
      · simp at h1
        subst h1
        exact digitChar_mem (n % 10) (Nat.mod_lt n (by omega))

theorem natToChars_ne_nil (n : Nat) : natToChars n ≠ [] := by
  rw [natToChars_eq]
  by_cases h : n < 10
  · simp [h]
  · simp [h]

theorem digitsCore_nil (acc : Nat) : digitsCore [] acc = some acc := rfl

theorem digitsCore_cons_digit (c : Char) (hd : c.isDigit = true) (rest : List Char) (acc : Nat) :
    digitsCore (c :: rest) acc = digitsCore rest (acc * 10 + digitVal c) := by
  rw [digitsCore.eq_def]
  simp [hd]

theorem pyDigits_cons (c : Char) (rest : List Char) :
    pyDigits (c :: rest) = if c.isDigit then digitsCore rest (digitVal c) else none := rfl

theorem pySigned_cons (c : Char) (rest : List Char) :
    pySigned (c :: rest) =
      if c = '+' then (pyDigits rest).map (fun n => Int.ofNat n)
      else if c = '-' then (pyDigits rest).map (fun n => -(Int.ofNat n))
      else (pyDigits (c :: rest)).map (fun n => Int.ofNat n) := rfl

theorem digitsCore_natToChars (n : Nat) : ∀ (acc : Nat) (rest : List Char),
    digitsCore (natToChars n ++ rest) acc =
      digitsCore rest (acc * 10 ^ (natToChars n).length + n) := by
  induction n using Nat.strong_induction_on with
  | _ n ih =>
    intro acc rest
    rw [natToChars_eq]
    by_cases h : n < 10
    · rw [if_pos h]
      have hd := (digitChars_props _ (digitChar_mem n h)).1
      have hv := digitVal_digitChar n h
      rw [List.singleton_append, digitsCore_cons_digit _ hd _ _, hv]
      simp
    · rw [if_neg h]
      have hlt : n / 10 < n := Nat.div_lt_self (by omega) (by decide)
      rw [List.append_assoc, ih (n / 10) hlt acc _]
      have hm : n % 10 < 10 := Nat.mod_lt n (by omega)
      have hd := (digitChars_props _ (digitChar_mem _ hm)).1
      have hv := digitVal_digitChar _ hm
      rw [List.singleton_append, digitsCore_cons_digit _ hd _ _, hv]
      have harith : (acc * 10 ^ (natToChars (n / 10)).length + n / 10) * 10 + n % 10 =
          acc * (10 ^ (natToChars (n / 10)).length * 10) + (n / 10 * 10 + n % 10) := by ring
      rw [harith, Nat.div_add_mod' n 10, ← pow_succ]
      simp [List.length_append]

theorem pyDigits_natToChars (n : Nat) : pyDigits (natToChars n) = some n := by
  have h := digitsCore_natToChars n 0 []
  rw [List.append_nil, digitsCore_nil, Nat.zero_mul, Nat.zero_add] at h
  cases hC : natToChars n with
  | nil => exact absurd hC (natToChars_ne_nil n)
  | cons c cs =>
    have hcd : c.isDigit = true :=
      (digitChars_props c (natToChars_mem n c (hC ▸ List.mem_cons_self c cs))).1
    rw [hC, digitsCore_cons_digit c hcd cs 0, Nat.zero_mul, Nat.zero_add] at h
    rw [pyDigits_cons, if_pos hcd, h]

theorem dropWhile_eq_self_of_not (p : Char → Bool) (l : List Char)
    (h : ∀ c ∈ l, p c = false) : l.dropWhile p = l := by
  cases l with
  | nil => rfl
  | cons a t =>
    rw [List.dropWhile_cons]
    simp [h a (List.mem_cons_self a t)]

theorem pyStrip_eq_self (cs : List Char) (h : ∀ c ∈ cs, pyWs c = false) :
    pyStrip cs = cs := by
  unfold pyStrip
  rw [dropWhile_eq_self_of_not pyWs cs h,
    dropWhile_eq_self_of_not pyWs cs.reverse (fun c hc => h c (List.mem_reverse.mp hc)),
    List.reverse_reverse]

theorem pyIntRepr_chars (i : Int) : ∀ c ∈ pyIntRepr i, c ∈ digitChars ∨ c = '-' := by
  intro c hc
  unfold pyIntRepr at hc
  by_cases h : i < 0
  · rw [if_pos h] at hc
    rcases List.mem_cons.mp hc with rfl | hc2
    · exact Or.inr rfl
    · exact Or.inl (natToChars_mem _ c hc2)
  · rw [if_neg h] at hc
    exact Or.inl (natToChars_mem _ c hc)

theorem pyIntParse_pyIntRepr (i : Int) : pyIntParse (pyIntRepr i) = some i := by
  have hstrip : pyStrip (pyIntRepr i) = pyIntRepr i := by
    apply pyStrip_eq_self
    intro c hc
    rcases pyIntRepr_chars i c hc with h | h
    · exact (digitChars_props c h).2.1
    · subst h
      decide
  unfold pyIntParse
  rw [hstrip]
  by_cases h : i < 0
  · rw [show pyIntRepr i = '-' :: natToChars i.natAbs from by simp [pyIntRepr, h]]
    rw [pySigned_cons, if_neg (by decide : ¬ ('-' : Char) = '+'),
      if_pos (rfl : ('-' : Char) = '-'), pyDigits_natToChars]
    simp only [Option.map_some']
    congr 1
    simp only [Int.ofNat_eq_coe]
    omega
  · cases hC : natToChars i.toNat with
    | nil => exact absurd hC (natToChars_ne_nil i.toNat)
    | cons c cs =>
      have hmem := natToChars_mem i.toNat c (hC ▸ List.mem_cons_self c cs)
      have hprops := digitChars_props c hmem
      rw [show pyIntRepr i = c :: cs from by simp [pyIntRepr, h, hC]]
      rw [pySigned_cons, if_neg hprops.2.2.2.2.2.2.1, if_neg hprops.2.2.2.2.2.2.2]
      rw [← hC, pyDigits_natToChars]
      simp only [Option.map_some']
      congr 1
      simp only [Int.ofNat_eq_coe]
      omega

/-! ### The save/load round trip (claim C5) -/

theorem csvNeedsQuote_false (s : List Char) (h : goodField s) : csvNeedsQuote s = false := by
  rw [csvNeedsQuote, List.any_eq_false]
  intro c hc
  obtain ⟨h1, h2, h3, h4⟩ := h c hc
  simp [h1, h2, h3, h4]

theorem csvField_id (s : List Char) (h : goodField s) : csvField s = s := by
  rw [csvField, csvNeedsQuote_false s h]
  rfl

theorem pyIntRepr_goodField (i : Int) : goodField (pyIntRepr i) := by
  intro c hc
  rcases pyIntRepr_chars i c hc with h | h
  · have hp := digitChars_props c h
    exact ⟨hp.2.2.1, hp.2.2.2.1, hp.2.2.2.2.1, hp.2.2.2.2.2.1⟩
  · subst h
    exact ⟨by decide, by decide, by decide, by decide⟩

theorem saveLine_eq (u : User) (hc : goodField u.card_number.data)
    (hp : goodField u.password.data) :
    saveLine u = lineBody u ++ '\r' :: '\n' :: [] := by
  rw [saveLine, csvField_id _ hc, csvField_id _ hp, csvField_id _ (pyIntRepr_goodField u.balance),
    lineBody]
  simp

theorem lineBody_no_cr (u : User) (hc : goodField u.card_number.data)
    (hp : goodField u.password.data) : '\r' ∉ lineBody u := by
  intro hmem
  rw [lineBody] at hmem
  rcases List.mem_append.mp hmem with h | h
  · exact (hc _ h).2.2.1 rfl
  · rcases List.mem_cons.mp h with h2 | h2
    · exact (by decide : ('\r' : Char) ≠ ',') h2
    · rcases List.mem_append.mp h2 with h3 | h3
      · exact (hp _ h3).2.2.1 rfl
      · rcases List.mem_cons.mp h3 with h4 | h4
        · exact (by decide : ('\r' : Char) ≠ ',') h4
        · exact ((pyIntRepr_goodField u.balance) _ h4).2.2.1 rfl

theorem lineBody_no_nl (u : User) (hc : goodField u.card_number.data)
    (hp : goodField u.password.data) : '\n' ∉ lineBody u := by
  intro hmem
  rw [lineBody] at hmem
  rcases List.mem_append.mp hmem with h | h
  · exact (hc _ h).2.2.2 rfl
  · rcases List.mem_cons.mp h with h2 | h2
    · exact (by decide : ('\n' : Char) ≠ ',') h2
    · rcases List.mem_append.mp h2 with h3 | h3
      · exact (hp _ h3).2.2.2 rfl
      · rcases List.mem_cons.mp h3 with h4 | h4
        · exact (by decide : ('\n' : Char) ≠ ',') h4
        · exact ((pyIntRepr_goodField u.balance) _ h4).2.2.2 rfl

theorem parseLine_lineBody (u : User) (hc : goodField u.card_number.data)
    (hp : goodField u.password.data) : parseLine (lineBody u) = some u := by
  have hcc : ',' ∉ u.card_number.data := fun h => (hc _ h).1 rfl
  have hpc : ',' ∉ u.password.data := fun h => (hp _ h).1 rfl
  have hbc : ',' ∉ pyIntRepr u.balance := fun h => ((pyIntRepr_goodField u.balance) _ h).1 rfl
  rw [parseLine, lineBody, splitOnChar_append ',' _ _ hcc, splitOnChar_append ',' _ _ hpc,
    splitOnChar_no_sep ',' _ hbc]
  simp [pyIntParse_pyIntRepr]

theorem loadLines_saved (users : List User)
    (hgood : ∀ u ∈ users, goodField u.card_number.data ∧ goodField u.password.data) :
    loadLines (pyLines (unlChars (users.map saveLine).flatten)) = .ok users := by
  induction users with
  | nil => rfl
  | cons u rest ih =>
    have hu := hgood u (List.mem_cons_self u rest)
    have hrest := fun v hv => hgood v (List.mem_cons_of_mem u hv)
    rw [List.map_cons, List.flatten_cons, saveLine_eq u hu.1 hu.2, List.append_assoc,
      List.cons_append, List.cons_append, List.nil_append,
      unlChars_append_line _ _ (lineBody_no_cr u hu.1 hu.2),
      pyLines_append _ _ (lineBody_no_nl u hu.1 hu.2)]
    rw [show loadLines (lineBody u :: pyLines (unlChars (rest.map saveLine).flatten)) =
        match parseLine (lineBody u) with
        | none => Except.error .FormatError
        | some v =>
          (loadLines (pyLines (unlChars (rest.map saveLine).flatten))).map (fun us => v :: us)
      from rfl]
    rw [parseLine_lineBody u hu.1 hu.2, ih hrest]
    rfl

/-- Accounts obtained from a successful `load` come from parsed lines. -/
theorem loadLines_mem_parse (ls : List (List Char)) (users : List User)
    (h : loadLines ls = .ok users) : ∀ u ∈ users, ∃ l ∈ ls, parseLine l = some u := by
  induction ls generalizing users with
  | nil =>
    simp [loadLines] at h
    subst h
    simp
  | cons l rest ih =>
    cases hp : parseLine l with
    | none => simp [loadLines, hp] at h
    | some u0 =>
      have h1 : loadLines (l :: rest) = (loadLines rest).map (fun us => u0 :: us) := by
        simp [loadLines, hp]
      rw [h1] at h
      cases hr : loadLines rest with
      | error e =>
        rw [hr] at h
        simp [Except.map] at h
      | ok us =>
        rw [hr] at h
        simp [Except.map] at h
        subst h
        intro u hu
        rcases List.mem_cons.mp hu with rfl | hu2
        · exact ⟨l, List.mem_cons_self _ _, hp⟩
        · obtain ⟨l2, hl2, hp2⟩ := ih us hr u hu2
          exact ⟨l2, List.mem_cons_of_mem _ hl2, hp2⟩

theorem parseLine_fields (l : List Char) (u : User) (h : parseLine l = some u) :
    u.card_number.data ∈ splitOnChar ',' l ∧ u.password.data ∈ splitOnChar ',' l := by
  rw [parseLine] at h
  cases hsp : splitOnChar ',' l with
  | nil => rw [hsp] at h; simp at h
  | cons a t1 =>
    cases t1 with
    | nil => rw [hsp] at h; simp at h
    | cons b t2 =>
      cases t2 with
      | nil => rw [hsp] at h; simp at h
      | cons c t3 =>
        cases t3 with
        | cons d t4 => rw [hsp] at h; simp at h
        | nil =>
          rw [hsp] at h
          simp only [Option.map_eq_some'] at h
          obtain ⟨b0, hb0, hu⟩ := h
          rw [← hu]
          exact ⟨hsp ▸ List.mem_cons_self a (b :: c :: []),
            hsp ▸ List.mem_cons_of_mem a (List.mem_cons_self b (c :: []))⟩

theorem load_fields_good (content : String) (users : List User)
    (hload : load_users (some content) = .ok users) (u : User) (hu : u ∈ users)
    (hq : '"' ∉ u.card_number.data ∧ '"' ∉ u.password.data) :
    goodField u.card_number.data ∧ goodField u.password.data := by
  obtain ⟨l, hl, hp⟩ := loadLines_mem_parse _ users hload u hu
  obtain ⟨hcm, hpm⟩ := parseLine_fields l u hp
  have hnl : '\n' ∉ l := nl_not_mem_pyLines _ l hl
  have hnr : ∀ c ∈ l, c ≠ '\r' := fun c hc h =>
    unlChars_no_cr content.data (h ▸ mem_of_mem_pyLines _ l hl c hc)
  constructor
  · intro c hc
    have hcl : c ∈ l := mem_of_mem_splitOnChar ',' l _ c hcm hc
    exact ⟨fun h => sep_not_mem_splitOnChar ',' l _ hcm (h ▸ hc), fun h => hq.1 (h ▸ hc),
      hnr c hcl, fun h => hnl (h ▸ hcl)⟩
  · intro c hc
    have hcl : c ∈ l := mem_of_mem_splitOnChar ',' l _ c hpm hc
    exact ⟨fun h => sep_not_mem_splitOnChar ',' l _ hpm (h ▸ hc), fun h => hq.2 (h ▸ hc),
      hnr c hcl, fun h => hnl (h ▸ hcl)⟩

/-- Counterexample to claim C5 as stated: the file `1,a"b,5` is well formed
(its one line has three comma fields and an integer balance, as witnessed by
the successful first load), but the quote character in the password makes
`csv.writer` quote and double it on save, and the naive comma split of the
reload returns a different password. -/
theorem load_save_load_cex :
    load_users (some "1,a\"b,5") = .ok [⟨"1", "a\"b", 5⟩] ∧
    load_users (some (save [⟨"1", "a\"b", 5⟩])) = .ok [⟨"1", "\"a\"\"b\"", 5⟩] ∧
    (⟨"1", "a\"b", 5⟩ : User) ≠ ⟨"1", "\"a\"\"b\"", 5⟩ := by
  refine ⟨by decide, by decide, by decide⟩

/-- Claim C5 (amended): for every well-formed accounts file none of whose
card-number or password fields contains a double-quote character, `load`
then `save` then `load` yields the same sequence of `(cardNumber, password,
balance)` triples in the same order. -/
theorem load_save_load (content : String) (users : List User)
    (hload : load_users (some content) = .ok users)
    (hq : ∀ u ∈ users, '"' ∉ u.card_number.data ∧ '"' ∉ u.password.data) :
    load_users (some (save users)) = .ok users := by
  have hgood : ∀ u ∈ users, goodField u.card_number.data ∧ goodField u.password.data :=
    fun u hu => load_fields_good content users hload u hu (hq u hu)
  rw [load_users, save]
  exact loadLines_saved users hgood

theorem load_save_load_witness :
    load_users (some "1,a,5\n2,b,17\n") = .ok [⟨"1", "a", 5⟩, ⟨"2", "b", 17⟩] ∧
    load_users (some (save [⟨"1", "a", 5⟩, ⟨"2", "b", 17⟩])) =
      .ok [⟨"1", "a", 5⟩, ⟨"2", "b", 17⟩] := by
  have h1 : load_users (some "1,a,5\n2,b,17\n") = .ok [⟨"1", "a", 5⟩, ⟨"2", "b", 17⟩] := by
    decide
  exact ⟨h1, load_save_load "1,a,5\n2,b,17\n" [⟨"1", "a", 5⟩, ⟨"2", "b", 17⟩] h1 (by decide)⟩

example :
    withdraw 3 ⟨[⟨"1111", "a", 5⟩], some 0⟩ = (true, ⟨[⟨"1111", "a", 2⟩], some 0⟩) := by
  decide

example :
    transfer 3 "12a4" ⟨[⟨"1111", "a", 5⟩], some 0⟩ = (false, ⟨[⟨"1111", "a", 5⟩], some 0⟩) := by
  decide

example :
    authenticate "b" ⟨[⟨"1", "a", 5⟩, ⟨"2", "b", 7⟩], none⟩ =
      (some ⟨"2", "b", 7⟩, ⟨[⟨"1", "a", 5⟩, ⟨"2", "b", 7⟩], some 1⟩) := by
  decide


example : load_users (some "1111,pass1,1000000\n2222,pass2,500000\n") =
    .ok [⟨"1111", "pass1", 1000000⟩, ⟨"2222", "pass2", 500000⟩] := by decide

example : load_users (some "1111,pass1\n") = .error .FormatError := by decide

example : load_users (some "1111,pass1,x2\n") = .error .FormatError := by decide

example : load_users none = .error .NotFoundError := by decide

example : save [⟨"1", "a", 5⟩, ⟨"2", "b", 17⟩] = "1,a,5\r\n2,b,17\r\n" := by decide

example : load_users (some (save [⟨"1", "a", 5⟩])) = .ok [⟨"1", "a", 5⟩] := by decide

example : pyIntParse " -42\n".data = some (-42) := by decide

example : pyIntParse "1_0".data = some 10 := by decide

example : pyIntParse "1__0".data = none := by decide

end ATM
